import Mathlib

/-!
# Verification of the node-gm SM2/SM3 library

Shallow embedding of the SM3 hash engine (`sm_sm3.js`) and the SM2
key-pair / signature module (`sm_sm2.js`) of the Hyperledger-TWGC/node-gm
repository, together with theorems settling the specification claims.

Machine integers are modelled as `Nat` with explicit `% 2 ^ 32` where the
JavaScript source relies on 32-bit unsigned semantics (`>>> 0`, `& 0xffffffff`).
Byte strings are `List Nat`, hex strings are `List Char`.
-/

namespace NodeGM

/-- 32-bit left rotation, mirroring `_rotl` in `sm_sm3.js`:
`n %= 32; return ((x << n) | (x >>> (32 - n))) >>> 0;`
(for `x < 2^32`; the `n = 0` case gives `x`, as in JavaScript where
`x >>> 32` masks the shift count to 0 and `x | x = x`). -/
def rotl32 (x n : Nat) : Nat :=
  ((x <<< (n % 32)) % 2 ^ 32) ||| (x >>> (32 - n % 32))

/-- Hex digit character for a value `< 16`, lowercase (as produced by
`BN.toString(16)` and by hex rendering of DRBG output). -/
def hexChar (d : Nat) : Char :=
  if d < 10 then Char.ofNat (48 + d) else Char.ofNat (87 + d)

/-- Value of a hex digit character, as consumed by `new BN(str, 16)`.
Only applied to valid hex characters in this development. -/
def hexCharVal (c : Char) : Nat :=
  let v := c.toNat - 48
  if 49 ≤ v then v - 49 + 10 else if 17 ≤ v then v - 17 + 10 else v

/-- Big-endian parse of a hex character string, as `new BN(s, 16)` does. -/
def parseHexChars (s : List Char) : Nat :=
  s.foldl (fun r c => r * 16 + hexCharVal c) 0

/-- Big-endian value of a byte array, as `new BN(byteArray)` computes
(the base argument is ignored for arrays). -/
def byteListToNat (b : List Nat) : Nat :=
  b.foldl (fun r x => r * 256 + x) 0

/-- Little-endian (least-significant-first) hex digits of `n`, with explicit
fuel for structural recursion; empty list for `n = 0`. -/
def hexRevAux : Nat → Nat → List Nat
  | 0, _ => []
  | f + 1, n => if n = 0 then [] else n % 16 :: hexRevAux f (n / 16)

/-- Minimal-length lowercase hex rendering of `n`, as `BN.toString(16)`
produces (the zero value renders as `"0"`). 64 digits of fuel cover all
values below `2 ^ 256`. -/
def toHexMin (n : Nat) : List Char :=
  if n = 0 then ['0'] else ((hexRevAux 64 n).reverse).map hexChar

/-- Least-significant-first base-256 digits of `n`, with explicit fuel. -/
def byteRevAux : Nat → Nat → List Nat
  | 0, _ => []
  | f + 1, n => if n = 0 then [] else n % 256 :: byteRevAux f (n / 256)

/-- Minimal-length big-endian byte array of `n`, as `BN.toArray()` produces
(the zero value renders as the single byte `[0]`). -/
def toBytesMin (n : Nat) : List Nat :=
  if n = 0 then [0] else (byteRevAux 32 n).reverse

/-- Big-endian byte array of `n` zero-padded to exactly 32 bytes, as
`BN.toArray('be', 32)` produces for values below `2 ^ 256`. -/
def toBytes32 (n : Nat) : List Nat :=
  List.replicate (32 - (toBytesMin n).length) 0 ++ toBytesMin n

/-- Left-pad a hex string with `'0'` until its length is a multiple of 32,
as `BN.toString(16, 32)` does. -/
def padHexMult32 (h : List Char) : List Char :=
  List.replicate ((32 - h.length % 32) % 32) '0' ++ h

/-- Lowercase hex rendering of a byte array, two characters per byte. -/
def bytesToHexChars (b : List Nat) : List Char :=
  b.flatMap (fun x => [hexChar (x / 16 % 16), hexChar (x % 16)])

/-- Modular exponentiation `b ^ e % m` by binary recursion with explicit
fuel (300 levels cover any exponent below `2 ^ 300`). -/
def powModAux : Nat → Nat → Nat → Nat → Nat
  | 0, _, _, m => 1 % m
  | f + 1, b, e, m =>
    if e = 0 then 1 % m
    else
      let r := powModAux f (b * b % m) (e / 2) m
      if e % 2 = 1 then r * b % m else r

/-- Modular exponentiation `b ^ e % m` for exponents below `2 ^ 300`. -/
def powMod (b e m : Nat) : Nat := powModAux 300 b e m

/-! ## SM3 hash engine (`sm_sm3.js`) -/

/-- Round constant `_t(j)` of `SM3._compress`. -/
def sm3T (j : Nat) : Nat := if j < 16 then 0x79cc4519 else 0x7a879d8a

/-- Boolean function `_ff(j, x, y, z)` of `SM3._compress`. -/
def sm3FF (j x y z : Nat) : Nat :=
  if j < 16 then x ^^^ y ^^^ z else (x &&& y) ||| (x &&& z) ||| (y &&& z)

/-- Boolean function `_gg(j, x, y, z)` of `SM3._compress`; JavaScript's
`~x` on a 32-bit word is complement within 32 bits. -/
def sm3GG (j x y z : Nat) : Nat :=
  if j < 16 then x ^^^ y ^^^ z else (x &&& y) ||| ((2 ^ 32 - 1) ^^^ x) &&& z

/-- One step of the `_expand` message-schedule recurrence: given the words
built so far (`j = w.length`), the next word `w[j]` for `16 ≤ j < 68`. -/
def sm3ExpandStep (w : List Nat) : Nat :=
  let j := w.length
  let x := (w.getD (j - 16) 0) ^^^ (w.getD (j - 9) 0) ^^^ rotl32 (w.getD (j - 3) 0) 15
  let x' := x ^^^ rotl32 x 15 ^^^ rotl32 x 23
  x' ^^^ rotl32 (w.getD (j - 13) 0) 7 ^^^ (w.getD (j - 6) 0)

/-- Extension loop of `_expand` for `j = 16 .. 67`, appending one word at
a time (fuel-indexed structural recursion). -/
def sm3ExpandLoop : Nat → List Nat → List Nat
  | 0, w => w
  | f + 1, w => sm3ExpandLoop f (w ++ [sm3ExpandStep w])

/-- Source `_expand(b)`: 132 schedule words `w[0..67]` and `w'[0..63]` stored at
indices `68..131`, from a 64-byte block. -/
def sm3Expand (b : List Nat) : List Nat :=
  let w16 := (List.range 16).map (fun i =>
    ((b.getD (i * 4) 0 <<< 24) ||| (b.getD (i * 4 + 1) 0 <<< 16) |||
     (b.getD (i * 4 + 2) 0 <<< 8) ||| b.getD (i * 4 + 3) 0) % 2 ^ 32)
  let w68 := sm3ExpandLoop 52 w16
  w68 ++ (List.range 64).map (fun j => w68.getD j 0 ^^^ w68.getD (j + 4) 0)

/-- One round `j` of the compression loop over the register file
`r = [A,B,C,D,E,F,G,H]`. -/
def sm3Round (w : List Nat) (r : List Nat) (j : Nat) : List Nat :=
  let a := r.getD 0 0; let b := r.getD 1 0; let c := r.getD 2 0; let d := r.getD 3 0
  let e := r.getD 4 0; let f := r.getD 5 0; let g := r.getD 6 0; let h := r.getD 7 0
  let ss1 := rotl32 ((rotl32 a 12 + e + rotl32 (sm3T j) j) % 2 ^ 32) 7
  let ss2 := ss1 ^^^ rotl32 a 12
  let tt1 := (sm3FF j a b c + d + ss2 + w.getD (j + 68) 0) % 2 ^ 32
  let tt2 := (sm3GG j e f g + h + ss1 + w.getD j 0) % 2 ^ 32
  [tt1, a, rotl32 b 9, c, tt2 ^^^ rotl32 tt2 9 ^^^ rotl32 tt2 17, e, rotl32 f 19, g]

/-- Source `SM3._compress(m)`: message expansion, 64 rounds, and the final XOR of
the round registers into the state registers. -/
def sm3Compress (reg : List Nat) (m : List Nat) : List Nat :=
  let w := sm3Expand m
  let r := (List.range 64).foldl (sm3Round w) reg
  List.zipWith (fun a b => a ^^^ b) reg r

/-- The initial register values set by `SM3.reset()`. -/
def sm3IV : List Nat :=
  [0x7380166f, 0x4914b2b9, 0x172442d7, 0xda8a0600,
   0xa96f30bc, 0x163138aa, 0xe38dee4d, 0xb0fb0e4e]

/-- State of an SM3 engine: registers, buffered chunk, total bytes written. -/
structure SM3St where
  reg : List Nat
  chunk : List Nat
  size : Nat
  deriving Repr, DecidableEq

/-- A fresh engine, i.e. the state after `reset()`. -/
def sm3Init : SM3St := ⟨sm3IV, [], 0⟩

/-- The `while (this.chunk.length >= 64)` loop of `SM3.write`: compress
64-byte blocks while at least 64 bytes remain (fuel-indexed). -/
def sm3Loop : Nat → List Nat → List Nat → List Nat × List Nat
  | 0, reg, buf => (reg, buf)
  | f + 1, reg, buf =>
    if 64 ≤ buf.length then sm3Loop f (sm3Compress reg (buf.take 64)) (buf.drop 64)
    else (reg, buf)

/-- The write loop with sufficient fuel. -/
def sm3WriteLoop (reg buf : List Nat) : List Nat × List Nat :=
  sm3Loop buf.length reg buf

/-- Source `SM3.write(msg)` (the message already converted to bytes): buffer the
data, compressing each completed 64-byte block. -/
def sm3Write (st : SM3St) (m : List Nat) : SM3St :=
  let size := st.size + m.length
  let i := 64 - st.chunk.length
  if m.length < i then ⟨st.reg, st.chunk ++ m, size⟩
  else
    let r1 := sm3Compress st.reg (st.chunk ++ m.take i)
    let (r2, c2) := sm3Loop (m.drop i).length r1 (m.drop i)
    ⟨r2, c2, size⟩

/-- Source `SM3._fill()`: append `0x80`, zero-pad, then the 64-bit big-endian bit
length, mirroring the Nat-subtraction form of the JavaScript arithmetic
(`len -= 64` when fewer than 8 bytes remain in the block). -/
def sm3Fill (chunk : List Nat) (size : Nat) : List Nat :=
  let l := size * 8
  let len1 := (chunk.length + 1) % 64
  let zeros := if 64 - len1 < 8 then 120 - len1 else 56 - len1
  let hi := (l / 2 ^ 32) % 2 ^ 32
  let lo := l % 2 ^ 32
  chunk ++ 0x80 :: List.replicate zeros 0 ++
    [hi >>> 24 &&& 255, hi >>> 16 &&& 255, hi >>> 8 &&& 255, hi &&& 255,
     lo >>> 24 &&& 255, lo >>> 16 &&& 255, lo >>> 8 &&& 255, lo &&& 255]

/-- The `for (let i = 0; i < this.chunk.length; i += 64)` loop of
`SM3.sum`: compress every 64-byte slice (fuel-indexed). -/
def sm3SumLoop : Nat → List Nat → List Nat → List Nat
  | 0, reg, _ => reg
  | f + 1, reg, buf =>
    if buf.isEmpty then reg
    else sm3SumLoop f (sm3Compress reg (buf.take 64)) (buf.drop 64)

/-- Big-endian bytes of the eight registers, as the default (byte array)
output branch of `SM3.sum` produces. -/
def sm3DigestBytes (reg : List Nat) : List Nat :=
  reg.flatMap (fun h => [h >>> 24 &&& 255, h >>> 16 &&& 255, h >>> 8 &&& 255, h &&& 255])

/-- Hex output branch of `SM3.sum`: `digest += this.reg[i].toString(16)`,
i.e. minimal-length (NOT zero-padded) hex per register word. -/
def sm3DigestHex (reg : List Nat) : List Char :=
  reg.foldl (fun acc h => acc ++ toHexMin h) []

/-- The argument of `SM3.sum(msg)`: absent, a string (stored here as its
byte encoding), or a byte array. JavaScript truthiness differs: the empty
string is falsy while the empty array is truthy. -/
inductive SumArg where
  | none
  | str (bytes : List Nat)
  | arr (bytes : List Nat)
  deriving Repr, DecidableEq

/-- JavaScript truthiness of the `msg` argument of `sum`. -/
def sumArgTruthy : SumArg → Bool
  | .none => false
  | .str s => !s.isEmpty
  | .arr _ => true

/-- The bytes carried by a `sum` argument. -/
def sumArgBytes : SumArg → List Nat
  | .none => []
  | .str s => s
  | .arr b => b

/-- Register file after the `_fill` / compression phase of `SM3.sum` on
state `st` (after the optional reset/write of a message argument). -/
def sm3FinalRegs (st : SM3St) : List Nat :=
  let filled := sm3Fill st.chunk st.size
  sm3SumLoop filled.length st.reg filled

/-- Source `SM3.sum(msg)` with default (byte array) output: the digest together
with the state the engine is left in (always the reset state). -/
def sm3Sum (st : SM3St) (arg : SumArg) : List Nat × SM3St :=
  let st1 := if sumArgTruthy arg then sm3Write sm3Init (sumArgBytes arg) else st
  (sm3DigestBytes (sm3FinalRegs st1), sm3Init)

/-- Source `SM3.sum(msg, 'hex')`: same computation with the hex output branch. -/
def sm3SumHex (st : SM3St) (arg : SumArg) : List Char × SM3St :=
  let st1 := if sumArgTruthy arg then sm3Write sm3Init (sumArgBytes arg) else st
  (sm3DigestHex (sm3FinalRegs st1), sm3Init)

/-- The composite `reset(); write(msg); sum()` that the specification
compares `sum(msg)` against. -/
def sm3ResetWriteSum (msg : List Nat) : List Nat × SM3St :=
  sm3Sum (sm3Write sm3Init msg) .none

/-! ## SM2 curve parameters (`_sm2Params` in `sm_sm2.js`) -/

/-- The field prime `p` of the SM2 curve. -/
def pSM2 : Nat := 0xFFFFFFFEFFFFFFFFFFFFFFFFFFFFFFFFFFFFFFFF00000000FFFFFFFFFFFFFFFF

/-- Curve coefficient `a`. -/
def aSM2 : Nat := 0xFFFFFFFEFFFFFFFFFFFFFFFFFFFFFFFFFFFFFFFF00000000FFFFFFFFFFFFFFFC

/-- Curve coefficient `b`. -/
def bSM2 : Nat := 0x28E9FA9E9D9F5E344D5A9E4BCF6509A7F39789F515AB8F92DDBCBD414D940E93

/-- The group order `n`. -/
def nSM2 : Nat := 0xFFFFFFFEFFFFFFFFFFFFFFFFFFFFFFFF7203DF6B21C6052B53BBF40939D54123

/-- Generator x-coordinate `Gx`. -/
def gxSM2 : Nat := 0x32C4AE2C1F1981195F9904466A39C9948FE30BBFF2660BE1715A4589334C74C7

/-- Generator y-coordinate `Gy`. -/
def gySM2 : Nat := 0xBC3736A2F4F6779C59BDCEE36B692153D0A9877CC62A474002DF32E52139F0A0

/-! ## Elliptic-curve arithmetic

The source delegates point arithmetic to the external `elliptic` package
(an out-of-scope collaborator per the specification); it is embedded here
as the mathematical group law on the affine short-Weierstrass curve, with
`Option.none` as the point at infinity. -/

/-- A point on the curve: `none` is the point at infinity `O`. -/
abbrev EPoint := Option (Nat × Nat)

/-- Field inverse modulo the prime `pSM2` (Fermat). -/
def invP (x : Nat) : Nat := powMod x (pSM2 - 2) pSM2

/-- Point addition (including doubling and the identity cases). -/
def ecAdd : EPoint → EPoint → EPoint
  | none, q => q
  | p, none => p
  | some (x1, y1), some (x2, y2) =>
    if x1 = x2 then
      if (y1 + y2) % pSM2 = 0 then none
      else
        let lam := (3 * x1 * x1 + aSM2) % pSM2 * invP (2 * y1 % pSM2) % pSM2
        let x3 := (lam * lam + 2 * pSM2 - x1 - x2) % pSM2
        some (x3, (lam * ((x1 + pSM2 - x3) % pSM2) + (pSM2 - y1 % pSM2) % pSM2) % pSM2)
    else
      let lam := (y2 + pSM2 - y1) % pSM2 * invP ((x2 + pSM2 - x1) % pSM2) % pSM2
      let x3 := (lam * lam + 2 * pSM2 - x1 - x2) % pSM2
      some (x3, (lam * ((x1 + pSM2 - x3) % pSM2) + (pSM2 - y1 % pSM2) % pSM2) % pSM2)

/-- Scalar multiplication `[k]·P` by binary double-and-add (fuel-indexed;
256 bits of scalar need at most 300 levels). -/
def ecMulAux : Nat → Nat → EPoint → EPoint
  | 0, _, _ => none
  | f + 1, k, P =>
    if k = 0 then none
    else
      let r := ecMulAux f (k / 2) (ecAdd P P)
      if k % 2 = 1 then ecAdd P r else r

/-- Scalar multiplication `[k]·P`. -/
def ecMul (k : Nat) (P : EPoint) : EPoint := ecMulAux 300 k P

/-- The generator point `G`. -/
def gSM2 : EPoint := some (gxSM2, gySM2)

/-- The right-hand side `x³ + a·x + b (mod p)` as `_sm2Point` computes it:
`px.redSqr().redMul(px).redIAdd(px.redMul(a)).redIAdd(b)`. -/
def rhsP (x : Nat) : Nat :=
  (((x * x % pSM2) * x % pSM2 + x * aSM2 % pSM2) % pSM2 + bSM2) % pSM2

/-- On-curve test `y² ≡ x³ + a·x + b (mod p)`, as `curve.validate` checks. -/
def onCurve (x y : Nat) : Bool := y * y % pSM2 == rhsP x

/-- Function `redSqrt` of the `elliptic`/`bn.js` stack for this prime: since
`p ≡ 3 (mod 4)` it computes `z ^ ((p+1)/4) mod p`. -/
def sqrtP (z : Nat) : Nat := powMod z ((pSM2 + 1) / 4) pSM2

/-- Function `redNeg`: `0` stays `0`, otherwise `p - y`. -/
def negP (y : Nat) : Nat := if y = 0 then 0 else pSM2 - y

/-! ## Public-key encoding and decoding (`sm_sm2.js`) -/

/-- The compression mode argument of `pubToString` / `pubToBytes`; the
`switch` default case is the `nocompress` format. -/
inductive Mode where
  | compress
  | nocompress
  | mix
  deriving Repr, DecidableEq

/-- Source `SM2KeyPair.pubToString(mode)` for a key pair whose public key is the
affine point `(x, y)`: one two-hex-digit prefix chosen by the parity of
`Y`, then `getX().toString(16, 32)` (and `getY()` likewise), i.e.
minimal hex left-padded to a MULTIPLE OF 32 characters. -/
def pubToString (mode : Mode) (x y : Nat) : List Char :=
  match mode with
  | .compress =>
    (if y % 2 = 0 then ['0', '2'] else ['0', '3']) ++ padHexMult32 (toHexMin x)
  | .mix =>
    (if y % 2 = 0 then ['0', '6'] else ['0', '7']) ++
      padHexMult32 (toHexMin x) ++ padHexMult32 (toHexMin y)
  | .nocompress =>
    ['0', '4'] ++ padHexMult32 (toHexMin x) ++ padHexMult32 (toHexMin y)

/-- Source `SM2KeyPair.pubToBytes(mode)`: one prefix byte, then
`getX().toArray('be', 32)` (and `getY()` likewise). -/
def pubToBytes (mode : Mode) (x y : Nat) : List Nat :=
  match mode with
  | .compress => (if y % 2 = 0 then [0x02] else [0x03]) ++ toBytes32 x
  | .mix =>
    (if y % 2 = 0 then [0x06] else [0x07]) ++ toBytes32 x ++ toBytes32 y
  | .nocompress => [0x04] ++ toBytes32 x ++ toBytes32 y

/-- Source `SM2Curve._sm2Point(x, y)` with both coordinates given (`x`, `y` are
the already-parsed integer values): build the point and reject it when it
does not satisfy the curve equation (`curve.validate`). -/
def sm2PointXY (x y : Nat) : Option EPoint :=
  if onCurve x y then some (some (x, y)) else none

/-- Source `SM2Curve._sm2Point(x, null, parity)`: recover `y` as the modular
square root of `x³ + a·x + b`, negating it when its parity differs from
the requested one. No on-curve validation happens on this path. -/
def sm2PointCompressed (x : Nat) (parityOdd : Bool) : Option EPoint :=
  let px := x % pSM2
  let py := sqrtP (rhsP px)
  let py := if parityOdd ≠ (py % 2 = 1 : Bool) then negP py else py
  some (some (px, py))

/-- Source `SM2KeyPair._pubFromString(s)`: length check, fixed-offset slicing of
`X` (chars 2..65) and `Y` (chars 66..129), dispatch on the prefix.
`Option.none` models a thrown error. -/
def pubFromString (s : List Char) : Option EPoint :=
  if s.length < 66 then none
  else
    let x := parseHexChars ((s.drop 2).take 64)
    let c0 := s.getD 0 ' '
    let c1 := s.getD 1 ' '
    if c0 = '0' ∧ c1 = '0' then none
    else if c0 = '0' ∧ c1 = '2' then sm2PointCompressed x false
    else if c0 = '0' ∧ c1 = '3' then sm2PointCompressed x true
    else if c0 = '0' ∧ (c1 = '4' ∨ c1 = '6' ∨ c1 = '7') then
      if s.length < 130 then none
      else sm2PointXY x (parseHexChars ((s.drop 66).take 64))
    else none

/-- Source `SM2KeyPair._pubFromBytes(b)`: length check, slicing of `X` (bytes
1..32) and `Y` (bytes 33..64), dispatch on the prefix byte. -/
def pubFromBytes (b : List Nat) : Option EPoint :=
  if b.length < 33 then none
  else
    let x := byteListToNat ((b.drop 1).take 32)
    let c := b.getD 0 0
    if c = 0x00 then none
    else if c = 0x02 then sm2PointCompressed x false
    else if c = 0x03 then sm2PointCompressed x true
    else if c = 0x04 ∨ c = 0x06 ∨ c = 0x07 then
      if b.length < 65 then none
      else sm2PointXY x (byteListToNat ((b.drop 33).take 32))
    else none

/-! ## Key pair construction and validation (`sm_sm2.js`) -/

/-- Source `SM2KeyPair.validate()` on the fields `pub` (absent / infinity object /
affine point) and `pri`: the public key must not be infinity, must lie on
the curve and must satisfy `[n]·pub = O`; the private key must satisfy
`pri ≤ n − 2` and, when the public key is present, `pub = [pri]·G`. -/
def kpValidate (pub : Option EPoint) (pri : Option Nat) : Bool :=
  (match pub with
   | none => true
   | some P =>
     match P with
     | none => false
     | some (x, y) => onCurve x y && decide (ecMul nSM2 (some (x, y)) = none)) &&
  (match pri with
   | none => true
   | some d =>
     decide (d ≤ nSM2 - 2) &&
     (match pub with
      | none => true
      | some P => decide (P = ecMul d gSM2)))

/-- The `pub` constructor argument: a hex string, a byte array, or a
native `elliptic` point object; `Option.none` of the enclosing option is
an absent (falsy) argument. -/
inductive PubArg where
  | hexS (s : List Char)
  | bytes (b : List Nat)
  | pt (x y : Nat)
  deriving Repr, DecidableEq

/-- The `pri` constructor argument: a hex string or a native `BN`. -/
inductive PriArg where
  | hexS (s : List Char)
  | bn (d : Nat)
  deriving Repr, DecidableEq

/-- Whether the public-key argument is a native point object (the case the
constructor marks `validPub = true` without validation). -/
def pubArgNative : Option PubArg → Bool
  | some (.pt _ _) => true
  | _ => false

/-- Whether the private-key argument is a native `BN` (`validPri = true`). -/
def priArgNative : Option PriArg → Bool
  | some (.bn _) => true
  | _ => false

/-- The key-pair record held by a constructed `SM2KeyPair`. -/
structure KeyPair where
  pub : Option EPoint
  pri : Option Nat
  deriving Repr, DecidableEq

/-- The public-key parsing phase of the constructor: `_pubFromString` for
a hex string, `_pubFromBytes` for a byte array (either may throw), the
point itself for a native point object. -/
def ctorPubParse (pub : Option PubArg) : Except Unit (Option EPoint) :=
  match pub with
  | none => .ok none
  | some (.hexS s) =>
    match pubFromString s with
    | none => .error ()
    | some P => .ok (some P)
  | some (.bytes b) =>
    match pubFromBytes b with
    | none => .error ()
    | some P => .ok (some P)
  | some (.pt x y) => .ok (some (some (x, y)))

/-- The private-key value stored by the constructor: `new BN(pri, 16)` for
a hex string, the big integer itself for a native `BN`. -/
def ctorPriVal (pri : Option PriArg) : Option Nat :=
  match pri with
  | none => none
  | some (.hexS s) => some (parseHexChars s)
  | some (.bn d) => some d

/-- The public key after the derivation step `this.pub = SM2.g.mul(this.pri)`
that runs when only the private key was given. -/
def ctorPubFinal (pub0 : Option EPoint) (priV : Option Nat) : Option EPoint :=
  match pub0, priV with
  | none, some d => some (ecMul d gSM2)
  | p, _ => p

/-- Source `SM2KeyPair.constructor(pub, pri)`: parse the public key, parse the
private key, derive `pub = [pri]·G` when only `pri` is given, and throw
(`Except.error`) unless both arguments were native objects
(`validPub && validPri`) or `validate()` passes. -/
def sm2Ctor (pub : Option PubArg) (pri : Option PriArg) : Except Unit KeyPair :=
  match ctorPubParse pub with
  | .error () => .error ()
  | .ok pub0 =>
    if pubArgNative pub && priArgNative pri then
      .ok ⟨ctorPubFinal pub0 (ctorPriVal pri), ctorPriVal pri⟩
    else if kpValidate (ctorPubFinal pub0 (ctorPriVal pri)) (ctorPriVal pri) then
      .ok ⟨ctorPubFinal pub0 (ctorPriVal pri), ctorPriVal pri⟩
    else .error ()

/-! ## Signing and verification (`sm_sm2.js`) -/

/-- The nonce `k` of one `signDigest` iteration:
`new BN(_drbg.generate(32, 'hex', ...), 16).umod(this.curve.n)`, i.e. the
big-endian value of the 32 DRBG bytes reduced modulo `n`. -/
def sigK (drbg : List Nat) : Nat := byteListToNat drbg % nSM2

/-- Inverse modulo `n` (`BN.invm(n)`), via Fermat for the prime `n`. -/
def invN (x : Nat) : Nat := powMod x (nSM2 - 2) nSM2

/-- One iteration of the `signDigest` loop, given the digest value `e`,
the private key and the 32 DRBG bytes of this iteration.
`Except.error` models the exception thrown by `kg.getX()` when
`[k]·G` is the point at infinity; `Except.ok none` is a retry
(`r = 0`, `r + k = n` or `s = 0`); `Except.ok (some (r, s))` is a
produced signature. -/
def signIter (pri e : Nat) (drbg : List Nat) : Except Unit (Option (Nat × Nat)) :=
  let k := sigK drbg
  match ecMul k gSM2 with
  | none => .error ()
  | some (x1, _) =>
    let r := (e + x1) % nSM2
    if r = 0 then .ok none
    else if r + k = nSM2 then .ok none
    else
      let t1 := invN (1 + pri)
      let t2 := (((k : Int) - (r : Int) * (pri : Int)) % (nSM2 : Int)).toNat
      let s := t1 * t2 % nSM2
      if s = 0 then .ok none else .ok (some (r, s))

/-- Source `SM2KeyPair.verifyDigest(digest, r, s)` where `e`, `r`, `s` are the
integer values of the digest (`utils.hashToBN`, big-endian) and of the two
hex strings; `pub` is the public-key point. `Option.none` models the
exception thrown by `q.getX()` when `q` is the point at infinity. -/
def verifyDigest (pub : EPoint) (e r s : Nat) : Option Bool :=
  if nSM2 ≤ r then some false
  else if nSM2 ≤ s then some false
  else
    let t := (r + s) % nSM2
    if t = 0 then some false
    else
      match ecAdd (ecMul s gSM2) (ecMul t pub) with
      | none => none
      | some (qx, _) => some (((e + qx) % nSM2) == r)

/-! ## `Z_A` preamble (`SM2KeyPair._combine`) and key generation -/

/-- The byte sequence hashed to produce `Z_A` in `_combine`: the fixed
18-byte preamble, then `a`, `b`, `Gx`, `Gy`, `pubX`, `pubY`, each rendered
with the MINIMAL-length `BN.toArray()` (no 32-byte zero padding). -/
def combineInput (pubX pubY : Nat) : List Nat :=
  [0x00, 0x80, 0x31, 0x32, 0x33, 0x34, 0x35, 0x36, 0x37, 0x38,
   0x31, 0x32, 0x33, 0x34, 0x35, 0x36, 0x37, 0x38] ++
  toBytesMin aSM2 ++ toBytesMin bSM2 ++ toBytesMin gxSM2 ++ toBytesMin gySM2 ++
  toBytesMin pubX ++ toBytesMin pubY

/-- The candidate private key of one `genKeyPair` iteration:
`new BN(_drbg.generate(32, 'hex', ...))` — note the missing radix
argument, so the 64-character lowercase hex string is parsed with the
`bn.js` DEFAULT base 10, in which the characters `'a'..'f'` contribute
digit values 10..15 (`parseBase` in `bn.js` v4). -/
def genKeyCandidate (drbg : List Nat) : Nat :=
  (bytesToHexChars drbg).foldl (fun r c => r * 10 + hexCharVal c) 0

/-- The acceptance test of the `genKeyPair` loop:
`while (pri.cmp(limit) > 0)` with `limit = n − 2`. -/
def genKeyAccept (d : Nat) : Bool := decide (d ≤ nSM2 - 2)

/-- The y-coordinate of the curve point with x-coordinate 1 (a valid
public-key point whose x-coordinate is far below `2 ^ 128`). -/
def smallXPointY : Nat :=
  0x9F7A091433A81E3F218F405F792355BF2AA98B5FFA95982F03870800065279A3

/-! ## Lemmas about the SM3 write loop -/

theorem sm3Loop_congr (f₁ f₂ reg buf) (h₁ : buf.length ≤ f₁) (h₂ : buf.length ≤ f₂) :
    sm3Loop f₁ reg buf = sm3Loop f₂ reg buf := by
  induction f₁ generalizing f₂ reg buf with
  | zero =>
    have hb : buf = [] := List.eq_nil_of_length_eq_zero (Nat.le_zero.mp h₁)
    subst hb
    cases f₂ with
    | zero => rfl
    | succ g => simp [sm3Loop]
  | succ f ih =>
    cases f₂ with
    | zero =>
      have hb : buf = [] := List.eq_nil_of_length_eq_zero (Nat.le_zero.mp h₂)
      subst hb
      simp [sm3Loop]
    | succ g =>
      by_cases h : 64 ≤ buf.length
      · simp only [sm3Loop, if_pos h]
        exact ih _ _ _ (by simp [List.length_drop]; omega) (by simp [List.length_drop]; omega)
      · simp only [sm3Loop, if_neg h]

theorem sm3WriteLoop_small (reg buf) (h : buf.length < 64) :
    sm3WriteLoop reg buf = (reg, buf) := by
  unfold sm3WriteLoop
  cases hL : buf.length with
  | zero => simp [sm3Loop]
  | succ k => rw [sm3Loop]; rw [hL]; simp; omega

theorem sm3WriteLoop_step (reg buf) (h : 64 ≤ buf.length) :
    sm3WriteLoop reg buf =
      sm3WriteLoop (sm3Compress reg (buf.take 64)) (buf.drop 64) := by
  unfold sm3WriteLoop
  cases hL : buf.length with
  | zero => omega
  | succ k =>
    rw [sm3Loop, hL]
    simp only [if_pos (hL ▸ h)]
    exact sm3Loop_congr _ _ _ _ (by simp [List.length_drop]; omega)
      (by simp [List.length_drop])

theorem sm3WriteLoop_rest_lt (reg buf) : (sm3WriteLoop reg buf).2.length < 64 := by
  by_cases h : 64 ≤ buf.length
  · rw [sm3WriteLoop_step reg buf h]
    exact sm3WriteLoop_rest_lt _ _
  · rw [sm3WriteLoop_small reg buf (by omega)]
    show buf.length < 64
    omega
termination_by buf.length
decreasing_by simp [List.length_drop]; omega

theorem sm3WriteLoop_append (reg u v) :
    sm3WriteLoop (sm3WriteLoop reg u).1 ((sm3WriteLoop reg u).2 ++ v) =
      sm3WriteLoop reg (u ++ v) := by
  by_cases h : 64 ≤ u.length
  · rw [sm3WriteLoop_step reg u h, sm3WriteLoop_step reg (u ++ v) (by simp; omega)]
    rw [List.take_append_eq_append_take, List.drop_append_eq_append_drop]
    rw [Nat.sub_eq_zero_of_le h]
    simp only [List.take_zero, List.append_nil, List.drop_zero]
    exact sm3WriteLoop_append _ _ _
  · rw [sm3WriteLoop_small reg u (by omega)]
termination_by u.length
decreasing_by simp [List.length_drop]; omega

theorem sm3Write_eq_loop (st : SM3St) (m : List Nat) (h : st.chunk.length < 64) :
    sm3Write st m =
      ⟨(sm3WriteLoop st.reg (st.chunk ++ m)).1,
       (sm3WriteLoop st.reg (st.chunk ++ m)).2, st.size + m.length⟩ := by
  unfold sm3Write
  by_cases hm : m.length < 64 - st.chunk.length
  · rw [if_pos hm, sm3WriteLoop_small _ _ (by simp; omega)]
  · rw [if_neg hm]
    rw [sm3WriteLoop_step _ _ (by simp; omega)]
    rw [List.take_append_eq_append_take, List.drop_append_eq_append_drop]
    rw [List.take_of_length_le (l := st.chunk) (by omega),
      List.drop_of_length_le (l := st.chunk) (by omega)]
    simp only [List.nil_append]
    rw [show sm3Loop (m.drop (64 - st.chunk.length)).length
          (sm3Compress st.reg (st.chunk ++ m.take (64 - st.chunk.length)))
          (m.drop (64 - st.chunk.length)) =
        sm3WriteLoop (sm3Compress st.reg (st.chunk ++ m.take (64 - st.chunk.length)))
          (m.drop (64 - st.chunk.length)) from rfl]

theorem sm3Write_chunk_lt (st : SM3St) (m : List Nat) (h : st.chunk.length < 64) :
    (sm3Write st m).chunk.length < 64 := by
  rw [sm3Write_eq_loop st m h]
  exact sm3WriteLoop_rest_lt _ _

theorem sm3Write_write (st : SM3St) (a b : List Nat) (h : st.chunk.length < 64) :
    sm3Write (sm3Write st a) b = sm3Write st (a ++ b) := by
  have h1 := sm3Write_eq_loop st a h
  have h2 := sm3Write_eq_loop st (a ++ b) h
  have h3 : (sm3Write st a).chunk.length < 64 := sm3Write_chunk_lt st a h
  rw [sm3Write_eq_loop (sm3Write st a) b h3, h1, h2]
  simp only
  rw [sm3WriteLoop_append, List.append_assoc]
  simp [List.length_append, Nat.add_assoc]

theorem sm3_foldl_write (parts : List (List Nat)) (st : SM3St)
    (h : st.chunk.length < 64) :
    parts.foldl sm3Write st = sm3Write st parts.flatten := by
  induction parts generalizing st with
  | nil =>
    simp only [List.foldl_nil, List.flatten_nil]
    unfold sm3Write
    rw [if_pos (by simp; omega)]
    simp
  | cons a rest ih =>
    simp only [List.foldl_cons, List.flatten_cons]
    rw [ih (sm3Write st a) (sm3Write_chunk_lt st a h),
      sm3Write_write st a rest.flatten h]

/-! ## Claim theorems: SM3 -/

set_option maxRecDepth 100000 in
/-- C4: `sum` applied to the 3-byte ASCII message "abc" on a fresh SM3
engine returns exactly the 32 bytes whose lowercase hex rendering is
`66c7f0f462eeedd9d1f2d46bdc10e4e24167c4875cf2f7a2297da02b8f4ba8e0`. -/
theorem sm3_abc_digest :
    (sm3Sum sm3Init (.str [0x61, 0x62, 0x63])).1 =
      [0x66, 0xc7, 0xf0, 0xf4, 0x62, 0xee, 0xed, 0xd9,
       0xd1, 0xf2, 0xd4, 0x6b, 0xdc, 0x10, 0xe4, 0xe2,
       0x41, 0x67, 0xc4, 0x87, 0x5c, 0xf2, 0xf7, 0xa2,
       0x29, 0x7d, 0xa0, 0x2b, 0x8f, 0x4b, 0xa8, 0xe0] ∧
    bytesToHexChars
      [0x66, 0xc7, 0xf0, 0xf4, 0x62, 0xee, 0xed, 0xd9,
       0xd1, 0xf2, 0xd4, 0x6b, 0xdc, 0x10, 0xe4, 0xe2,
       0x41, 0x67, 0xc4, 0x87, 0x5c, 0xf2, 0xf7, 0xa2,
       0x29, 0x7d, 0xa0, 0x2b, 0x8f, 0x4b, 0xa8, 0xe0] =
      ['6', '6', 'c', '7', 'f', '0', 'f', '4', '6', '2', 'e', 'e', 'e', 'd', 'd', '9',
       'd', '1', 'f', '2', 'd', '4', '6', 'b', 'd', 'c', '1', '0', 'e', '4', 'e', '2',
       '4', '1', '6', '7', 'c', '4', '8', '7', '5', 'c', 'f', '2', 'f', '7', 'a', '2',
       '2', '9', '7', 'd', 'a', '0', '2', 'b', '8', 'f', '4', 'b', 'a', '8', 'e', '0'] := by
  constructor <;> decide

/-- C5: writing any partition of a byte message part by part into a fresh
SM3 engine and then calling `sum()` yields the same digest (and the same
final engine state) as `sum(msg)` on a fresh engine. -/
theorem sm3_streaming_eq_oneshot (parts : List (List Nat)) :
    sm3Sum (parts.foldl sm3Write sm3Init) .none = sm3Sum sm3Init (.arr parts.flatten) := by
  rw [sm3_foldl_write parts sm3Init (by simp [sm3Init])]
  rfl

/-- C6 (amended): `sum(msg)` is equivalent to `reset(); write(msg); sum()`
for every engine state and every JavaScript-truthy message argument —
every non-empty string and every byte array, including the empty byte
array. (The empty string is falsy, so `sum('')` skips the reset; see the
counterexample.) -/
theorem sm3_sum_eq_reset_write_sum (st : SM3St) (arg : SumArg)
    (h : sumArgTruthy arg = true) :
    sm3Sum st arg = sm3ResetWriteSum (sumArgBytes arg) := by
  unfold sm3Sum sm3ResetWriteSum
  rw [h]
  rfl

/-- C6 witness: the equivalence applied to a buffered engine and the empty
byte array. -/
theorem sm3_sum_eq_reset_write_sum_witness :
    sumArgTruthy (.arr []) = true ∧
      sm3Sum (sm3Write sm3Init [0x61]) (.arr []) = sm3ResetWriteSum (sumArgBytes (.arr [])) :=
  ⟨rfl, sm3_sum_eq_reset_write_sum (sm3Write sm3Init [0x61]) (.arr []) rfl⟩

set_option maxRecDepth 100000 in
/-- C6 counterexample: on an engine holding one buffered byte `0x61`,
`sum('')` (the empty STRING is falsy in JavaScript, so no reset happens)
returns the digest of "a", not the digest that `reset(); write(''); sum()`
returns. -/
theorem sm3_sum_empty_string_cex :
    sm3Sum (sm3Write sm3Init [0x61]) (.str []) ≠ sm3ResetWriteSum [] := by
  decide

set_option maxRecDepth 100000 in
/-- C10 (code bug): for the one-byte message `[0x00]`, the hex output of
`sum` has only 63 characters — the register word `0x024c81cd` is rendered
by `toString(16)` without its leading zero — while the hex rendering of
the 32-byte default output has 64 characters. -/
theorem sm3_hex_output_drops_leading_zero :
    (sm3SumHex sm3Init (.arr [0x00])).1 ≠
        bytesToHexChars ((sm3Sum sm3Init (.arr [0x00])).1) ∧
      (sm3SumHex sm3Init (.arr [0x00])).1.length = 63 ∧
      (bytesToHexChars ((sm3Sum sm3Init (.arr [0x00])).1)).length = 64 := by
  refine ⟨by decide, by decide, by decide⟩

/-! ## Claim theorems: SM2 signing and verification -/

/-- C1 (amended): `verifyDigest` returns `false` whenever the integer
value of `r` or of `s` is at least `n`; the values `r = 0` and `s = 0`
pass this range check (they are caught only indirectly when
`(r + s) mod n = 0`), so the claimed rejection of `r = 0` and `s = 0`
does not hold — see the counterexample. -/
theorem verifyDigest_range_reject (P : EPoint) (e r s : Nat)
    (h : nSM2 ≤ r ∨ nSM2 ≤ s) : verifyDigest P e r s = some false := by
  unfold verifyDigest
  rcases h with h | h
  · rw [if_pos h]
  · by_cases hr : nSM2 ≤ r
    · rw [if_pos hr]
    · rw [if_neg hr, if_pos h]

/-- C1 witness: the range rejection applied at `r = n`. -/
theorem verifyDigest_range_reject_witness :
    (nSM2 ≤ nSM2 ∨ nSM2 ≤ 0) ∧ verifyDigest gSM2 0 nSM2 0 = some false :=
  ⟨Or.inl le_rfl, verifyDigest_range_reject gSM2 0 nSM2 0 (Or.inl le_rfl)⟩

set_option maxRecDepth 100000 in
/-- C1 counterexample: for the valid key pair with `pri = 1` (public key
`G = [1]·G`), the digest value `e = n + 1 − Gx` and the signature
`(r, s) = (1, 0)`: `s = 0` is outside `[1, n−1]`, yet `verifyDigest`
returns `true` (`t = r = 1`, `q = [0]·G + [1]·G = G`, and
`(e + Gx) mod n = 1 = r`). -/
theorem verifyDigest_zero_s_accepted :
    ecMul 1 gSM2 = some (gxSM2, gySM2) ∧
      verifyDigest (some (gxSM2, gySM2)) (nSM2 + 1 - gxSM2) 1 0 = some true := by
  constructor <;> decide

set_option maxRecDepth 100000 in
/-- C2 (code bug): `genKeyPair` builds the candidate scalar with
`new BN(_drbg.generate(32, 'hex', ...))` — without the radix 16 that
`signDigest` passes — so the 64-character hex string is parsed with the
`bn.js` default base 10. For the DRBG output `00…0010` (big-endian value
16) the candidate is 10, not 16. The acceptance test `d ≤ n − 2` itself
matches the claim. -/
theorem genKeyPair_base10_parse_bug :
    genKeyCandidate (List.replicate 31 0 ++ [16]) = 10 ∧
      byteListToNat (List.replicate 31 0 ++ [16]) = 16 ∧
      genKeyAccept 10 = true := by
  refine ⟨by decide, by decide, by decide⟩

/-- C3 (amended): in every `signDigest` iteration the nonce is
`k = (DRBG value) mod n`, so `k < n` always, and `k ∈ [1, n−1]` holds
exactly when `n` does not divide the DRBG value; when `k = 0` the
iteration throws (`kg.getX()` on the point at infinity) instead of
signing. -/
theorem signDigest_k_range (pri e : Nat) (b : List Nat) :
    sigK b < nSM2 ∧
      (¬ nSM2 ∣ byteListToNat b → 1 ≤ sigK b ∧ sigK b ≤ nSM2 - 1) ∧
      (sigK b = 0 → signIter pri e b = .error ()) := by
  refine ⟨Nat.mod_lt _ (by decide), fun h => ?_, fun h => ?_⟩
  · have h0 : sigK b ≠ 0 := fun hz => h (Nat.dvd_of_mod_eq_zero hz)
    have hlt : sigK b < nSM2 := Nat.mod_lt _ (by decide)
    omega
  · simp only [signIter, h]
    rfl

/-- C3 witness: for the DRBG value 1 the nonce is 1, inside `[1, n−1]`. -/
theorem signDigest_k_range_witness :
    ¬ nSM2 ∣ byteListToNat [1] ∧ 1 ≤ sigK [1] :=
  ⟨by decide, ((signDigest_k_range 1 0 [1]).2.1 (by decide)).1⟩

/-- C3 counterexample: for the all-zero 32-byte DRBG output the nonce `k`
is 0 — outside `[1, n−1]` — and the iteration throws. -/
theorem signDigest_k_zero_cex :
    sigK (List.replicate 32 0) = 0 ∧
      signIter 1 0 (List.replicate 32 0) = .error () :=
  ⟨by decide, by rfl⟩

/-! ## Claim theorems: SM2 key-pair constructor -/

/-- C9 (amended): for every accepted input combination EXCEPT a native
point object together with a native big integer, the constructor throws
unless `validate()` passes, i.e. whenever any validation condition is
violated (`pub = O`, `pub` off the curve, `[n]·pub ≠ O`, `pri > n − 2`,
or `pub ≠ [pri]·G` with both present). In the both-native case validation
is skipped entirely — see the counterexample. -/
theorem sm2Ctor_validates (pub : Option PubArg) (pri : Option PriArg) (kp : KeyPair)
    (hnat : ¬(pubArgNative pub = true ∧ priArgNative pri = true))
    (hok : sm2Ctor pub pri = .ok kp) :
    kpValidate kp.pub kp.pri = true := by
  unfold sm2Ctor at hok
  cases hparse : ctorPubParse pub with
  | error e => rw [hparse] at hok; cases hok
  | ok pub0 =>
    rw [hparse] at hok
    have hskip : (pubArgNative pub && priArgNative pri) = false := by
      cases h1 : pubArgNative pub <;> cases h2 : priArgNative pri <;> simp_all
    rw [hskip] at hok
    simp only [Bool.false_eq_true, if_false] at hok
    by_cases hval : kpValidate (ctorPubFinal pub0 (ctorPriVal pri)) (ctorPriVal pri) = true
    · rw [if_pos hval] at hok
      cases hok
      simpa using hval
    · rw [if_neg hval] at hok
      cases hok

/-- C9 witness: the empty constructor call `new SM2KeyPair()` (used by the
repository's own tests) is accepted and validates. -/
theorem sm2Ctor_validates_witness :
    kpValidate (KeyPair.mk none none).pub (KeyPair.mk none none).pri = true :=
  sm2Ctor_validates none none ⟨none, none⟩ (by simp [pubArgNative, priArgNative]) rfl

set_option maxRecDepth 100000 in
/-- C9 counterexample: with a native point object `G` and a native big
integer `n − 1 > n − 2` the constructor succeeds — `validPub && validPri`
short-circuits `validate()` — although the private-key range condition is
violated. -/
theorem sm2Ctor_skips_validation_cex :
    sm2Ctor (some (.pt gxSM2 gySM2)) (some (.bn (nSM2 - 1))) =
        .ok ⟨some (some (gxSM2, gySM2)), some (nSM2 - 1)⟩ ∧
      ¬(nSM2 - 1 ≤ nSM2 - 2) :=
  ⟨by rfl, by decide⟩

/-! ## Lemmas about numeral rendering and parsing -/

theorem pow16_64_eq : (16 : Nat) ^ 64 = 2 ^ 256 := by norm_num

theorem pow16_32_eq : (16 : Nat) ^ 32 = 2 ^ 128 := by norm_num

theorem pow256_32_eq : (256 : Nat) ^ 32 = 2 ^ 256 := by norm_num

theorem pow256_31_eq : (256 : Nat) ^ 31 = 2 ^ 248 := by norm_num

theorem hexCharVal_hexChar : ∀ d < 16, hexCharVal (hexChar d) = d := by decide

theorem parseHexChars_append_one (xs : List Char) (c : Char) :
    parseHexChars (xs ++ [c]) = parseHexChars xs * 16 + hexCharVal c := by
  simp [parseHexChars, List.foldl_append]

theorem byteListToNat_append_one (xs : List Nat) (c : Nat) :
    byteListToNat (xs ++ [c]) = byteListToNat xs * 256 + c := by
  simp [byteListToNat, List.foldl_append]

theorem parseHexChars_cons_zero (t : List Char) :
    parseHexChars ('0' :: t) = parseHexChars t := by
  show List.foldl _ (0 * 16 + hexCharVal '0') t = _
  rfl

theorem parseHexChars_replicate_zero (k : Nat) (s : List Char) :
    parseHexChars (List.replicate k '0' ++ s) = parseHexChars s := by
  induction k with
  | zero => simp
  | succ k ih => rw [List.replicate_succ, List.cons_append, parseHexChars_cons_zero, ih]

theorem byteListToNat_cons_zero (t : List Nat) :
    byteListToNat (0 :: t) = byteListToNat t := by
  show List.foldl _ (0 * 256 + 0) t = _
  rfl

theorem byteListToNat_replicate_zero (k : Nat) (s : List Nat) :
    byteListToNat (List.replicate k 0 ++ s) = byteListToNat s := by
  induction k with
  | zero => simp
  | succ k ih => rw [List.replicate_succ, List.cons_append, byteListToNat_cons_zero, ih]

theorem parseHexChars_hexRevAux (f : Nat) :
    ∀ n, n < 16 ^ f → parseHexChars ((hexRevAux f n).reverse.map hexChar) = n := by
  induction f with
  | zero =>
    intro n h
    norm_num at h
    subst h
    rfl
  | succ f ih =>
    intro n h
    by_cases h0 : n = 0
    · subst h0; rfl
    · rw [hexRevAux, if_neg h0, List.reverse_cons, List.map_append]
      rw [List.map_singleton, parseHexChars_append_one]
      rw [ih (n / 16) (by rw [pow_succ] at h; omega)]
      rw [hexCharVal_hexChar (n % 16) (Nat.mod_lt _ (by norm_num))]
      omega

theorem byteListToNat_byteRevAux (f : Nat) :
    ∀ n, n < 256 ^ f → byteListToNat ((byteRevAux f n).reverse) = n := by
  induction f with
  | zero =>
    intro n h
    norm_num at h
    subst h
    rfl
  | succ f ih =>
    intro n h
    by_cases h0 : n = 0
    · subst h0; rfl
    · rw [byteRevAux, if_neg h0, List.reverse_cons, byteListToNat_append_one]
      rw [ih (n / 256) (by rw [pow_succ] at h; omega)]
      omega

theorem hexRevAux_length_le (f : Nat) : ∀ n, (hexRevAux f n).length ≤ f := by
  induction f with
  | zero => intro n; simp [hexRevAux]
  | succ f ih =>
    intro n
    rw [hexRevAux]
    by_cases h0 : n = 0
    · simp [h0]
    · rw [if_neg h0]
      simpa using ih (n / 16)

theorem byteRevAux_length_le (f : Nat) : ∀ n, (byteRevAux f n).length ≤ f := by
  induction f with
  | zero => intro n; simp [byteRevAux]
  | succ f ih =>
    intro n
    rw [byteRevAux]
    by_cases h0 : n = 0
    · simp [h0]
    · rw [if_neg h0]
      simpa using ih (n / 256)

theorem hexRevAux_length_ge (f : Nat) :
    ∀ k n, k < f → 16 ^ k ≤ n → k + 1 ≤ (hexRevAux f n).length := by
  induction f with
  | zero => intro k n hk; omega
  | succ f ih =>
    intro k n hk h
    have h0 : n ≠ 0 := by
      have := Nat.one_le_pow k 16 (by norm_num)
      omega
    rw [hexRevAux, if_neg h0]
    cases k with
    | zero => simp
    | succ k =>
      have h16 : 16 ^ k ≤ n / 16 := by
        rw [Nat.le_div_iff_mul_le (by norm_num)]
        calc 16 ^ k * 16 = 16 ^ (k + 1) := (pow_succ 16 k).symm
          _ ≤ n := h
      have := ih k (n / 16) (by omega) h16
      simp
      omega

theorem byteRevAux_length_ge (f : Nat) :
    ∀ k n, k < f → 256 ^ k ≤ n → k + 1 ≤ (byteRevAux f n).length := by
  induction f with
  | zero => intro k n hk; omega
  | succ f ih =>
    intro k n hk h
    have h0 : n ≠ 0 := by
      have := Nat.one_le_pow k 256 (by norm_num)
      omega
    rw [byteRevAux, if_neg h0]
    cases k with
    | zero => simp
    | succ k =>
      have h256 : 256 ^ k ≤ n / 256 := by
        rw [Nat.le_div_iff_mul_le (by norm_num)]
        calc 256 ^ k * 256 = 256 ^ (k + 1) := (pow_succ 256 k).symm
          _ ≤ n := h
      have := ih k (n / 256) (by omega) h256
      simp
      omega

theorem toBytes32_spec (n : Nat) (h : n < 2 ^ 256) :
    (toBytes32 n).length = 32 ∧ byteListToNat (toBytes32 n) = n := by
  have hle : (toBytesMin n).length ≤ 32 := by
    unfold toBytesMin
    by_cases h0 : n = 0
    · simp [h0]
    · rw [if_neg h0]
      simpa using byteRevAux_length_le 32 n
  have hparse : byteListToNat (toBytesMin n) = n := by
    unfold toBytesMin
    by_cases h0 : n = 0
    · simp [h0]; rfl
    · rw [if_neg h0]
      exact byteListToNat_byteRevAux 32 n (by rw [pow256_32_eq]; exact h)
  constructor
  · unfold toBytes32
    simp [List.length_append, List.length_replicate]
    omega
  · unfold toBytes32
    rw [byteListToNat_replicate_zero, hparse]

theorem toHexMin_parse (n : Nat) (h : n < 2 ^ 256) :
    parseHexChars (toHexMin n) = n := by
  unfold toHexMin
  by_cases h0 : n = 0
  · simp [h0]; rfl
  · rw [if_neg h0]
    exact parseHexChars_hexRevAux 64 n (by rw [pow16_64_eq]; exact h)

theorem padHexMult32_spec (n : Nat) (h128 : 2 ^ 128 ≤ n) (h256 : n < 2 ^ 256) :
    (padHexMult32 (toHexMin n)).length = 64 ∧
      parseHexChars (padHexMult32 (toHexMin n)) = n := by
  have h0 : n ≠ 0 := by
    have := Nat.one_le_two_pow (n := 128)
    omega
  have hlen : 33 ≤ (toHexMin n).length ∧ (toHexMin n).length ≤ 64 := by
    unfold toHexMin
    rw [if_neg h0]
    simp only [List.length_map, List.length_reverse]
    constructor
    · exact hexRevAux_length_ge 64 32 n (by omega) (by rw [pow16_32_eq]; exact h128)
    · exact hexRevAux_length_le 64 n
  constructor
  · unfold padHexMult32
    simp [List.length_append, List.length_replicate]
    omega
  · unfold padHexMult32
    rw [parseHexChars_replicate_zero]
    exact toHexMin_parse n h256

theorem toBytesMin_length32 (n : Nat) (h248 : 2 ^ 248 ≤ n) (h256 : n < 2 ^ 256) :
    (toBytesMin n).length = 32 := by
  have h0 : n ≠ 0 := by
    have : (0 : Nat) < 2 ^ 248 := Nat.pos_pow_of_pos 248 (by norm_num)
    omega
  unfold toBytesMin
  rw [if_neg h0]
  simp only [List.length_reverse]
  have hle := byteRevAux_length_le 32 n
  have hge := byteRevAux_length_ge 32 31 n (by omega) (by rw [pow256_31_eq]; exact h248)
  omega

/-! ## Lemmas about public-key decoding on encoder-shaped inputs -/

theorem sm2PointXY_of_onCurve (X Y : Nat) (hc : onCurve X Y = true) :
    sm2PointXY X Y = some (some (X, Y)) := by
  simp [sm2PointXY, hc]

theorem sm2PointCompressed_recovers (X Y : Nat) (hxlt : X < pSM2) (hylt : Y < pSM2)
    (hy0 : 0 < Y) (hsq : sqrtP (rhsP X) = Y ∨ sqrtP (rhsP X) = pSM2 - Y) :
    sm2PointCompressed X (decide (Y % 2 = 1)) = some (some (X, Y)) := by
  unfold sm2PointCompressed
  simp only [Nat.mod_eq_of_lt hxlt]
  have hp2 : pSM2 % 2 = 1 := by decide
  rcases hsq with h | h <;> rw [h]
  · rw [if_neg (by simp)]
  · have hcond : decide (Y % 2 = 1) ≠ decide ((pSM2 - Y) % 2 = 1) := by
      rcases Nat.mod_two_eq_zero_or_one Y with h2 | h2
      · have h3 : (pSM2 - Y) % 2 = 1 := by omega
        simp [h2, h3]
      · have h3 : (pSM2 - Y) % 2 = 0 := by omega
        simp [h2, h3]
    rw [if_pos hcond]
    unfold negP
    rw [if_neg (by omega : ¬ pSM2 - Y = 0)]
    have : pSM2 - (pSM2 - Y) = Y := by omega
    rw [this]

theorem pubFromString_xy (c : Char) (hc : c = '4' ∨ c = '6' ∨ c = '7')
    (hx hy : List Char) (hlx : hx.length = 64) (hly : hy.length = 64) :
    pubFromString ('0' :: c :: (hx ++ hy)) =
      sm2PointXY (parseHexChars hx) (parseHexChars hy) := by
  have hlen : ('0' :: c :: (hx ++ hy)).length = 130 := by
    simp [List.length_append, hlx, hly]
  have e2 : (('0' :: c :: (hx ++ hy)).drop 66) = (hx ++ hy).drop 64 := rfl
  have hxtake : (hx ++ hy).take 64 = hx := by
    rw [List.take_append_eq_append_take, List.take_of_length_le (le_of_eq hlx), hlx]
    norm_num
  have hydrop : (hx ++ hy).drop 64 = hy := by
    rw [List.drop_append_eq_append_drop, List.drop_of_length_le (le_of_eq hlx), hlx]
    norm_num
  rcases hc with rfl | rfl | rfl <;>
  · unfold pubFromString
    rw [hlen]
    rw [if_neg (by norm_num)]
    simp only [List.getD_cons_zero, List.getD_cons_succ, List.drop_succ_cons,
      List.drop_zero, e2, hxtake, hydrop]
    rw [if_neg (by decide), if_neg (by decide), if_neg (by decide),
      if_pos (by decide), if_neg (by norm_num)]
    rw [List.take_of_length_le (le_of_eq hly)]

theorem pubFromString_comp (c : Char) (hc : c = '2' ∨ c = '3')
    (hx : List Char) (hlx : hx.length = 64) :
    pubFromString ('0' :: c :: hx) =
      sm2PointCompressed (parseHexChars hx) (c == '3') := by
  have hlen : ('0' :: c :: hx).length = 66 := by simp [hlx]
  rcases hc with rfl | rfl <;>
  · unfold pubFromString
    rw [hlen]
    rw [if_neg (by norm_num)]
    simp only [List.getD_cons_zero, List.getD_cons_succ, List.drop_succ_cons,
      List.drop_zero]
    rw [List.take_of_length_le (le_of_eq hlx)]
    rw [if_neg (by decide)]
    first
      | rw [if_pos (by decide)]
      | (rw [if_neg (by decide), if_pos (by decide)])
    rfl

theorem pubFromBytes_xy (c : Nat) (hc : c = 4 ∨ c = 6 ∨ c = 7)
    (tx ty : List Nat) (hlx : tx.length = 32) (hly : ty.length = 32) :
    pubFromBytes (c :: (tx ++ ty)) =
      sm2PointXY (byteListToNat tx) (byteListToNat ty) := by
  have hlen : (c :: (tx ++ ty)).length = 65 := by
    simp [List.length_append, hlx, hly]
  have e2 : ((c :: (tx ++ ty)).drop 33) = (tx ++ ty).drop 32 := rfl
  have hxtake : (tx ++ ty).take 32 = tx := by
    rw [List.take_append_eq_append_take, List.take_of_length_le (le_of_eq hlx), hlx]
    norm_num
  have hydrop : (tx ++ ty).drop 32 = ty := by
    rw [List.drop_append_eq_append_drop, List.drop_of_length_le (le_of_eq hlx), hlx]
    norm_num
  rcases hc with rfl | rfl | rfl <;>
  · unfold pubFromBytes
    rw [hlen]
    rw [if_neg (by norm_num)]
    simp only [List.getD_cons_zero, List.drop_succ_cons, List.drop_zero, e2,
      hxtake, hydrop]
    rw [if_neg (by decide), if_neg (by decide), if_neg (by decide),
      if_pos (by decide), if_neg (by norm_num)]
    rw [List.take_of_length_le (le_of_eq hly)]

theorem pubFromBytes_comp (c : Nat) (hc : c = 2 ∨ c = 3)
    (tx : List Nat) (hlx : tx.length = 32) :
    pubFromBytes (c :: tx) = sm2PointCompressed (byteListToNat tx) (c == 3) := by
  have hlen : (c :: tx).length = 33 := by simp [hlx]
  rcases hc with rfl | rfl <;>
  · unfold pubFromBytes
    rw [hlen]
    rw [if_neg (by norm_num)]
    simp only [List.getD_cons_zero, List.drop_succ_cons, List.drop_zero]
    rw [List.take_of_length_le (le_of_eq hlx)]
    rw [if_neg (by decide)]
    first
      | rw [if_pos (by decide)]
      | (rw [if_neg (by decide), if_pos (by decide)])
    rfl

/-! ## Claim theorems: public-key encoding and the `Z_A` input -/

/-- C7 (amended): for every valid curve point `(X, Y)` (affine, `0 < Y`,
on the curve — with cofactor 1 every such point is a valid public key)
and every mode, decoding the BYTE encoding recovers the point exactly,
and decoding the HEX encoding recovers it provided both coordinates are
at least `2 ^ 128`, so that `toString(16, 32)` — which pads only to a
MULTIPLE of 32 hex digits — produces the 64 digits the decoder's fixed
offsets assume. The hypothesis on `sqrtP` is the contract of the
out-of-scope big-integer square root used for compressed decoding (it
holds because `p` is prime; the counterexample witness checks it
concretely for `G`). -/
theorem pub_encoding_roundtrip (mode : Mode) (X Y : Nat)
    (hxlt : X < pSM2) (hylt : Y < pSM2) (hy0 : 0 < Y)
    (hcurve : onCurve X Y = true)
    (hsq : sqrtP (rhsP X) = Y ∨ sqrtP (rhsP X) = pSM2 - Y) :
    pubFromBytes (pubToBytes mode X Y) = some (some (X, Y)) ∧
      (2 ^ 128 ≤ X → 2 ^ 128 ≤ Y →
        pubFromString (pubToString mode X Y) = some (some (X, Y))) := by
  have hplt : pSM2 < 2 ^ 256 := by decide
  have hX256 : X < 2 ^ 256 := by omega
  have hY256 : Y < 2 ^ 256 := by omega
  obtain ⟨hbxl, hbxp⟩ := toBytes32_spec X hX256
  obtain ⟨hbyl, hbyp⟩ := toBytes32_spec Y hY256
  constructor
  · cases mode with
    | compress =>
      rcases Nat.mod_two_eq_zero_or_one Y with hpar | hpar
      · have he : pubToBytes .compress X Y = 2 :: toBytes32 X := by
          simp [pubToBytes, hpar]
        rw [he, pubFromBytes_comp 2 (Or.inl rfl) _ hbxl, hbxp]
        have hb : ((2 : Nat) == 3) = decide (Y % 2 = 1) := by simp [hpar]
        rw [hb]
        exact sm2PointCompressed_recovers X Y hxlt hylt hy0 hsq
      · have he : pubToBytes .compress X Y = 3 :: toBytes32 X := by
          simp [pubToBytes, hpar]
        rw [he, pubFromBytes_comp 3 (Or.inr rfl) _ hbxl, hbxp]
        have hb : ((3 : Nat) == 3) = decide (Y % 2 = 1) := by simp [hpar]
        rw [hb]
        exact sm2PointCompressed_recovers X Y hxlt hylt hy0 hsq
    | nocompress =>
      have he : pubToBytes .nocompress X Y = 4 :: (toBytes32 X ++ toBytes32 Y) := by
        simp [pubToBytes]
      rw [he, pubFromBytes_xy 4 (Or.inl rfl) _ _ hbxl hbyl, hbxp, hbyp]
      exact sm2PointXY_of_onCurve X Y hcurve
    | mix =>
      rcases Nat.mod_two_eq_zero_or_one Y with hpar | hpar
      · have he : pubToBytes .mix X Y = 6 :: (toBytes32 X ++ toBytes32 Y) := by
          simp [pubToBytes, hpar]
        rw [he, pubFromBytes_xy 6 (Or.inr (Or.inl rfl)) _ _ hbxl hbyl, hbxp, hbyp]
        exact sm2PointXY_of_onCurve X Y hcurve
      · have he : pubToBytes .mix X Y = 7 :: (toBytes32 X ++ toBytes32 Y) := by
          simp [pubToBytes, hpar]
        rw [he, pubFromBytes_xy 7 (Or.inr (Or.inr rfl)) _ _ hbxl hbyl, hbxp, hbyp]
        exact sm2PointXY_of_onCurve X Y hcurve
  · intro h128x h128y
    obtain ⟨hhxl, hhxp⟩ := padHexMult32_spec X h128x hX256
    obtain ⟨hhyl, hhyp⟩ := padHexMult32_spec Y h128y hY256
    cases mode with
    | compress =>
      rcases Nat.mod_two_eq_zero_or_one Y with hpar | hpar
      · have he : pubToString .compress X Y =
            '0' :: '2' :: padHexMult32 (toHexMin X) := by
          simp [pubToString, hpar]
        rw [he, pubFromString_comp '2' (Or.inl rfl) _ hhxl, hhxp]
        have hb : ('2' == '3') = decide (Y % 2 = 1) := by simp [hpar]
        rw [hb]
        exact sm2PointCompressed_recovers X Y hxlt hylt hy0 hsq
      · have he : pubToString .compress X Y =
            '0' :: '3' :: padHexMult32 (toHexMin X) := by
          simp [pubToString, hpar]
        rw [he, pubFromString_comp '3' (Or.inr rfl) _ hhxl, hhxp]
        have hb : ('3' == '3') = decide (Y % 2 = 1) := by simp [hpar]
        rw [hb]
        exact sm2PointCompressed_recovers X Y hxlt hylt hy0 hsq
    | nocompress =>
      have he : pubToString .nocompress X Y =
          '0' :: '4' :: (padHexMult32 (toHexMin X) ++ padHexMult32 (toHexMin Y)) := by
        simp [pubToString]
      rw [he, pubFromString_xy '4' (Or.inl rfl) _ _ hhxl hhyl, hhxp, hhyp]
      exact sm2PointXY_of_onCurve X Y hcurve
    | mix =>
      rcases Nat.mod_two_eq_zero_or_one Y with hpar | hpar
      · have he : pubToString .mix X Y =
            '0' :: '6' :: (padHexMult32 (toHexMin X) ++ padHexMult32 (toHexMin Y)) := by
          simp [pubToString, hpar]
        rw [he, pubFromString_xy '6' (Or.inr (Or.inl rfl)) _ _ hhxl hhyl, hhxp, hhyp]
        exact sm2PointXY_of_onCurve X Y hcurve
      · have he : pubToString .mix X Y =
            '0' :: '7' :: (padHexMult32 (toHexMin X) ++ padHexMult32 (toHexMin Y)) := by
          simp [pubToString, hpar]
        rw [he, pubFromString_xy '7' (Or.inr (Or.inr rfl)) _ _ hhxl hhyl, hhxp, hhyp]
        exact sm2PointXY_of_onCurve X Y hcurve

set_option maxRecDepth 1000000 in
set_option maxHeartbeats 1000000 in
/-- C7 witness: the round trip applied to the generator `G` in compressed
mode, with the square-root contract checked by computation. -/
theorem pub_encoding_roundtrip_witness :
    pubFromBytes (pubToBytes .compress gxSM2 gySM2) = some (some (gxSM2, gySM2)) ∧
      pubFromString (pubToString .compress gxSM2 gySM2) = some (some (gxSM2, gySM2)) :=
  have h := pub_encoding_roundtrip .compress gxSM2 gySM2 (by decide) (by decide)
    (by decide) (by decide) (Or.inl (by decide))
  ⟨h.1, h.2 (by decide) (by decide)⟩

set_option maxRecDepth 1000000 in
set_option maxHeartbeats 1000000 in
/-- C7 counterexample: the curve point with `X = 1` (a valid public-key
point — the curve has cofactor 1). Its hex `X` is padded only to 32
characters, so the `nocompress` hex string has 98 characters instead of
130 and decoding throws, refuting both the 64-character padding claim and
the hex round trip. -/
theorem pub_hex_encoding_short_cex :
    onCurve 1 smallXPointY = true ∧
      (padHexMult32 (toHexMin 1)).length = 32 ∧
      (pubToString .nocompress 1 smallXPointY).length = 98 ∧
      pubFromString (pubToString .nocompress 1 smallXPointY) = none := by
  refine ⟨by decide, by decide, by decide, by decide⟩

/-- C8 (amended): the byte sequence hashed to produce `Z_A` is the fixed
18-byte preamble followed by `a`, `b`, `Gx`, `Gy`, `pubX`, `pubY`, where
the four curve constants do render as exactly 32 big-endian bytes (their
values exceed `2 ^ 248`), but the public-key coordinates are rendered
with the MINIMAL-length `toArray()` — 32 bytes exactly when the
coordinate is at least `2 ^ 248`, with no zero padding otherwise. -/
theorem combine_za_input (X Y : Nat)
    (hX : 2 ^ 248 ≤ X) (hX' : X < 2 ^ 256) (hY : 2 ^ 248 ≤ Y) (hY' : Y < 2 ^ 256) :
    combineInput X Y =
        [0x00, 0x80, 0x31, 0x32, 0x33, 0x34, 0x35, 0x36, 0x37, 0x38,
         0x31, 0x32, 0x33, 0x34, 0x35, 0x36, 0x37, 0x38] ++
        toBytes32 aSM2 ++ toBytes32 bSM2 ++ toBytes32 gxSM2 ++ toBytes32 gySM2 ++
        toBytesMin X ++ toBytesMin Y ∧
      (toBytesMin X).length = 32 ∧ (toBytesMin Y).length = 32 := by
  refine ⟨?_, toBytesMin_length32 X hX hX', toBytesMin_length32 Y hY hY'⟩
  have ha : toBytesMin aSM2 = toBytes32 aSM2 := by decide
  have hb : toBytesMin bSM2 = toBytes32 bSM2 := by decide
  have hgx : toBytesMin gxSM2 = toBytes32 gxSM2 := by decide
  have hgy : toBytesMin gySM2 = toBytes32 gySM2 := by decide
  unfold combineInput
  rw [ha, hb, hgx, hgy]

set_option maxRecDepth 1000000 in
/-- C8 witness: the `Z_A` input shape applied to the generator
coordinates (both above `2 ^ 248`). -/
theorem combine_za_input_witness :
    combineInput gxSM2 gySM2 =
        [0x00, 0x80, 0x31, 0x32, 0x33, 0x34, 0x35, 0x36, 0x37, 0x38,
         0x31, 0x32, 0x33, 0x34, 0x35, 0x36, 0x37, 0x38] ++
        toBytes32 aSM2 ++ toBytes32 bSM2 ++ toBytes32 gxSM2 ++ toBytes32 gySM2 ++
        toBytesMin gxSM2 ++ toBytesMin gySM2 ∧
      (toBytesMin gxSM2).length = 32 ∧ (toBytesMin gySM2).length = 32 :=
  combine_za_input gxSM2 gySM2 (by decide) (by decide) (by decide) (by decide)

set_option maxRecDepth 1000000 in
/-- C8 counterexample: for the valid public-key point with `X = 1`
(cofactor 1), `toArray()` renders `pubX` as the single byte `[1]`, so the
hashed sequence has 179 bytes, not the `18 + 6·32 = 210` the claim's
32-byte zero-padded encoding would give. -/
theorem combine_za_not_padded_cex :
    onCurve 1 smallXPointY = true ∧
      (combineInput 1 smallXPointY).length = 179 ∧ 179 ≠ 18 + 6 * 32 := by
  refine ⟨by decide, by decide, by decide⟩

end NodeGM
